import Mathlib

/-!
Verification development for the `pw` password-manager tool (`src/main.rs`).

Strings borrowed from the store text are modelled as `List Char`.  Rust's
Unicode-aware `char::is_whitespace` and `str::to_lowercase` are modelled by
Lean's `Char.isWhitespace` and `Char.toLower`, which agree with them on the
ASCII range exercised by the store format.
-/

namespace Pw

/-- View a string literal as the char-list representation used throughout. -/
def str (s : String) : List Char := s.data

/-- Whitespace test used by `str::trim` and `str::split_whitespace`. -/
def isWs (c : Char) : Bool := c.isWhitespace

/-- Model of Rust `str::trim`: drop leading and trailing whitespace. -/
def trim (l : List Char) : List Char :=
  ((l.dropWhile isWs).reverse.dropWhile isWs).reverse

/-- Model of Rust `str::to_lowercase` (ASCII fragment). -/
def lower (l : List Char) : List Char := l.map Char.toLower

/-- Test whether `needle` occurs at the start of `hay`. -/
def startsWithList : List Char → List Char → Bool
  | [], _ => true
  | _ :: _, [] => false
  | a :: as, b :: bs => a = b && startsWithList as bs

/-- Test whether `needle` occurs contiguously somewhere in `hay`
(model of Rust `str::contains` with a string pattern). -/
def isSubstring (needle : List Char) : List Char → Bool
  | [] => needle.isEmpty
  | c :: rest => startsWithList needle (c :: rest) || isSubstring needle rest

/-- Model of `hay.contains(needle)` as used in `list`. -/
def strContains (hay needle : List Char) : Bool := isSubstring needle hay

/-- Helper for `splitWhitespace`: `acc` holds, reversed, the characters
of the token currently being scanned. -/
def splitWsAux : List Char → List Char → List (List Char)
  | [], acc => if acc.isEmpty then [] else [acc.reverse]
  | c :: rest, acc =>
    if isWs c then
      if acc.isEmpty then splitWsAux rest []
      else acc.reverse :: splitWsAux rest []
    else splitWsAux rest (c :: acc)

/-- Model of Rust `str::split_whitespace`: the maximal runs of
non-whitespace characters, in order. -/
def splitWhitespace (l : List Char) : List (List Char) :=
  splitWsAux l []

/-- The error type of `main.rs` (the variants reachable from the core
logic; `io::Error` values are abstracted as `Nat` identifiers). -/
inductive Err where
  | MissingMarker (line : Nat)
  | MissingName (line : Nat)
  | MissingLink (line : Nat)
  | MissingUsername (line : Nat)
  | MissingPassword (line : Nat)
  | InvalidEntryMarker (line : Nat) (marker : List Char)
  | PwGenSpawn (e : Nat)
  | PwGenWait (e : Nat)
  | PwGenErr (code : Int)
  | PwGenErrMsg (code : Int) (msg : List Char)
  | PwGenStderrErr (code : Int) (e : Nat)
  | PwGenNoStdout
  | PwGenStdoutErr (e : Nat)
  | PwGenDied
  | Mismatch (query : List Char)
  | NoMatches (query : List Char)
deriving DecidableEq

/-- One parsed record's four fields (`struct EntryData`). -/
structure EntryData where
  name : List Char
  link : List Char
  username : List Char
  password : List Char
deriving DecidableEq

/-- A record tagged with its status marker (`enum Entry`):
`Valid` = `+` (active), `Invalid` = `-` (inactive), `Change` = `*`. -/
inductive Entry where
  | Valid (d : EntryData)
  | Invalid (d : EntryData)
  | Change (d : EntryData)
deriving DecidableEq

/-- Model of `EntryData::parse`: pull name, link, username, password off the token
iterator in order, reporting the first missing field. -/
def EntryData.parse (num : Nat) (toks : List (List Char)) :
    Except Err EntryData :=
  match toks with
  | [] => .error (.MissingName num)
  | [_] => .error (.MissingLink num)
  | [_, _] => .error (.MissingUsername num)
  | [_, _, _] => .error (.MissingPassword num)
  | name :: link :: username :: password :: _ =>
    .ok ⟨name, link, username, password⟩

/-- Model of `Entry::parse`: take the marker token, parse the four fields, and only
then classify the marker. -/
def Entry.parse (num : Nat) (toks : List (List Char)) : Except Err Entry :=
  match toks with
  | [] => .error (.MissingMarker num)
  | marker :: rest =>
    match EntryData.parse num rest with
    | .error e => .error e
    | .ok data =>
      if marker = str "+" then .ok (.Valid data)
      else if marker = str "-" then .ok (.Invalid data)
      else if marker = str "*" then .ok (.Change data)
      else .error (.InvalidEntryMarker num marker)

/-- The filter in `parse`: keep a line whose trimmed form is non-empty and
does not start with `#`. -/
def keepLine (line : List Char) : Bool :=
  let t := trim line
  !t.isEmpty && !(t.head? == some '#')

/-- The enumerate/filter/map chain of `parse`, with `k` the 0-based index
of the first line of `data` within the store. -/
def parseFrom (k : Nat) : List (List Char) → List (Except Err Entry)
  | [] => []
  | line :: rest =>
    if keepLine line then
      Entry.parse (k + 1) (splitWhitespace line) :: parseFrom (k + 1) rest
    else parseFrom (k + 1) rest

/-- Model of `parse`: one result per kept line, numbered 1-based from the top. -/
def parse (data : List (List Char)) : List (Except Err Entry) :=
  parseFrom 0 data

/-- Model of `fmt_entry`: expand `%N`/`%L`/`%U`/`%P` against a record, pass other
`%`-escapes and plain characters through, keep a trailing lone `%`. -/
def fmt_entry : List Char → EntryData → List Char
  | [], _ => []
  | c :: rest, d =>
    if c = '%' then
      match rest with
      | [] => ['%']
      | c2 :: rest2 =>
        if c2 = 'N' then d.name ++ fmt_entry rest2 d
        else if c2 = 'L' then d.link ++ fmt_entry rest2 d
        else if c2 = 'U' then d.username ++ fmt_entry rest2 d
        else if c2 = 'P' then d.password ++ fmt_entry rest2 d
        else c :: c2 :: fmt_entry rest2 d
    else c :: fmt_entry rest d

/-- The loop of `check`: count the three statuses, failing fast on the
first parse error. -/
def runCheck : List (Except Err Entry) → Nat → Nat → Nat →
    Except Err (Nat × Nat × Nat)
  | [], valid, invalid, change => .ok (valid, invalid, change)
  | r :: rest, valid, invalid, change =>
    match r with
    | .error e => .error e
    | .ok (.Valid _) => runCheck rest (valid + 1) invalid change
    | .ok (.Invalid _) => runCheck rest valid (invalid + 1) change
    | .ok (.Change _) => runCheck rest valid invalid (change + 1)

/-- Model of `check`: the triple is reported in print order
(`valid` current, `invalid` inactive, `change` need changing). -/
def check (data : List (List Char)) : Except Err (Nat × Nat × Nat) :=
  runCheck (parse data) 0 0 0

/-- The loop of `get`: scan all results, tracking the unique Active match. -/
def runGet : List (Except Err Entry) → List Char → Option EntryData →
    Except Err EntryData
  | [], acc, matched =>
    match matched with
    | some d => .ok d
    | none => .error (.NoMatches acc)
  | r :: rest, acc, matched =>
    match r with
    | .error e => .error e
    | .ok (.Valid d) =>
      if d.name = acc then
        match matched with
        | some _ => .error (.Mismatch acc)
        | none => runGet rest acc (some d)
      else runGet rest acc matched
    | .ok _ => runGet rest acc matched

/-- Model of `get` over parse results: the printed lines paired with the error, if
any; the single rendered line is printed only after the whole scan. -/
def getOutputs (results : List (Except Err Entry)) (acc format : List Char) :
    List (List Char) × Option Err :=
  match runGet results acc none with
  | .ok d => ([fmt_entry format d], none)
  | .error e => ([], some e)

/-- Model of `get` on a store given as its list of lines. -/
def get (data : List (List Char)) (acc format : List Char) :
    List (List Char) × Option Err :=
  getOutputs (parse data) acc format

/-- The fixed search-mode template of `list`. -/
def defaultFmt : List Char := str "%N (%L) %U %P"

/-- The loop of `list`: print each case-insensitive substring match of an
Active record as it is encountered, stopping at the first parse error. -/
def runList : List (Except Err Entry) → List Char →
    List (List Char) × Option Err
  | [], _ => ([], none)
  | r :: rest, query =>
    match r with
    | .error e => ([], some e)
    | .ok (.Valid d) =>
      if strContains (lower d.name) (lower query) then
        let next := runList rest query
        (fmt_entry defaultFmt d :: next.1, next.2)
      else runList rest query
    | .ok _ => runList rest query

/-- Model of `list` on a store given as its list of lines. -/
def list (data : List (List Char)) (query : List Char) :
    List (List Char) × Option Err :=
  runList (parse data) query

/-- Model of Rust `char::is_ascii_punctuation`: code points 33-47,
58-64, 91-96 and 123-126. -/
def isAsciiPunctuation (c : Char) : Bool :=
  (33 ≤ c.toNat && c.toNat ≤ 47) || (58 ≤ c.toNat && c.toNat ≤ 64) ||
    (91 ≤ c.toNat && c.toNat ≤ 96) || (123 ≤ c.toNat && c.toNat ≤ 126)

/-- Model of `std::process::ExitStatus` for the pwgen child process. -/
inductive ExitStatus where
  | exited (code : Int)
  | signaled
deriving DecidableEq

/-- Model of `ExitStatus::success`: exited with code 0. -/
def ExitStatus.success : ExitStatus → Bool
  | .exited c => decide (c = 0)
  | .signaled => false

/-- Model of `ExitStatus::code`: the exit code, absent on signal death. -/
def ExitStatus.code : ExitStatus → Option Int
  | .exited c => some c
  | .signaled => none

deriving instance DecidableEq for Except

/-- One completed run of the pwgen child (spawn and wait succeeded):
its exit status and the contents of its captured pipes, each read either
succeeding with the text or failing with an I/O error (abstract `Nat`).
Both pipes are piped in `generate`, so both handles are present. -/
structure GenAttempt where
  status : ExitStatus
  stderr : Except Nat (List Char)
  stdout : Except Nat (List Char)
deriving DecidableEq

/-- Outcome of one iteration of the `gen_loop` body. -/
inductive StepResult where
  | emit (p : List Char)
  | retry
  | fail (e : Err)
deriving DecidableEq

/-- One iteration of the loop body of `generate`, given the completed
child run: classify failures, and on success trim the output and apply
the leading-punctuation policy. -/
def genStep (a : GenAttempt) : StepResult :=
  if !a.status.success then
    match a.status.code with
    | some code =>
      match a.stderr with
      | .error e => .fail (.PwGenStderrErr code e)
      | .ok s =>
        let t := trim s
        if t.isEmpty then .fail (.PwGenErr code)
        else .fail (.PwGenErrMsg code t)
    | none => .fail .PwGenDied
  else
    match a.stdout with
    | .error e => .fail (.PwGenStdoutErr e)
    | .ok s =>
      let t := trim s
      match t with
      | [] => .fail .PwGenNoStdout
      | c :: _ => if isAsciiPunctuation c then .retry else .emit t

/-- The retry loop of `generate`, driven by the stream of child runs
(`attempts n` is the run produced by the `n`-th spawn) and bounded by
`fuel`: `none` means the loop was still running after `fuel` spawns. -/
def genLoop : Nat → (Nat → GenAttempt) → Nat →
    Option (Except Err (List Char))
  | 0, _, _ => none
  | fuel + 1, attempts, i =>
    match genStep (attempts i) with
    | .emit p => some (.ok p)
    | .fail e => some (.error e)
    | .retry => genLoop fuel attempts (i + 1)

/-- The Active records whose name equals the query byte-for-byte, stated
from the spec's filter (`status == Active` and `name == query`), to be
compared with the behaviour of `get`. -/
def specActiveMatches (acc : List Char) (entries : List Entry) :
    List EntryData :=
  entries.filterMap fun e =>
    match e with
    | .Valid d => if d.name = acc then some d else none
    | _ => none

/-- The rendering an Active record receives from search when its name
contains the query case-insensitively, stated from the spec's filter, to
be compared with the behaviour of `list`. -/
def specSearchSelect (query : List Char) (e : Entry) : Option (List Char) :=
  match e with
  | .Valid d =>
    if strContains (lower d.name) (lower query) then
      some (fmt_entry defaultFmt d)
    else none
  | _ => none

/-- A parse result that is a `MissingMarker` error. -/
def isMissingMarker : Except Err Entry → Bool
  | .error (.MissingMarker _) => true
  | _ => false

/-- Holds iff some result in the list is a `MissingMarker` error. -/
def hasMissingMarker (rs : List (Except Err Entry)) : Bool :=
  rs.any isMissingMarker

/-- A parse result that is an Active (`+`) record. -/
def isOkValid : Except Err Entry → Bool
  | .ok (.Valid _) => true
  | _ => false

/-- A parse result that is an Inactive (`-`) record. -/
def isOkInvalid : Except Err Entry → Bool
  | .ok (.Invalid _) => true
  | _ => false

/-- A parse result that is a PendingChange (`*`) record. -/
def isOkChange : Except Err Entry → Bool
  | .ok (.Change _) => true
  | _ => false

/-- A sample record used to instantiate universally quantified results. -/
def ed0 : EntryData := ⟨str "n", str "l", str "u", str "p"⟩

/-- Claim C6: the renderer substitutes the four raw fields for their markers,
passes any other escaped character through as the two characters (so a
doubled percent stays doubled), preserves a lone trailing percent, copies
plain characters verbatim, and is the identity on percent-free templates. -/
theorem c6_fmt_entry_renderer :
    (∀ d rest, fmt_entry ('%' :: 'N' :: rest) d = d.name ++ fmt_entry rest d) ∧
    (∀ d rest, fmt_entry ('%' :: 'L' :: rest) d = d.link ++ fmt_entry rest d) ∧
    (∀ d rest, fmt_entry ('%' :: 'U' :: rest) d =
      d.username ++ fmt_entry rest d) ∧
    (∀ d rest, fmt_entry ('%' :: 'P' :: rest) d =
      d.password ++ fmt_entry rest d) ∧
    (∀ d c rest, c ≠ 'N' → c ≠ 'L' → c ≠ 'U' → c ≠ 'P' →
      fmt_entry ('%' :: c :: rest) d = '%' :: c :: fmt_entry rest d) ∧
    (∀ d rest, fmt_entry ('%' :: '%' :: rest) d =
      '%' :: '%' :: fmt_entry rest d) ∧
    (∀ d, fmt_entry ['%'] d = ['%']) ∧
    (∀ d c rest, c ≠ '%' → fmt_entry (c :: rest) d = c :: fmt_entry rest d) ∧
    (∀ d t, '%' ∉ t → fmt_entry t d = t) := by
  refine ⟨fun d rest => rfl, fun d rest => rfl, fun d rest => rfl,
    fun d rest => rfl, ?_, fun d rest => rfl, fun d => rfl, ?_, ?_⟩
  · intro d c rest h1 h2 h3 h4
    rw [fmt_entry.eq_def]
    simp [h1, h2, h3, h4]
  · intro d c rest h
    rw [fmt_entry.eq_def]
    simp [h]
  · intro d t h
    induction t with
    | nil => rfl
    | cons c rest ih =>
      rw [List.mem_cons, not_or] at h
      obtain ⟨hc, hrest⟩ := h
      rw [fmt_entry.eq_def]
      simp [Ne.symm hc, ih hrest]

/-- Witness for C6 at concrete inputs. -/
theorem c6_fmt_entry_renderer_witness :
    fmt_entry ('%' :: 'x' :: []) ed0 = '%' :: 'x' :: fmt_entry [] ed0 ∧
    fmt_entry ('a' :: []) ed0 = 'a' :: fmt_entry [] ed0 ∧
    fmt_entry (str "ab") ed0 = str "ab" :=
  ⟨c6_fmt_entry_renderer.2.2.2.2.1 ed0 'x' [] (by decide) (by decide)
      (by decide) (by decide),
    c6_fmt_entry_renderer.2.2.2.2.2.2.2.1 ed0 'a' [] (by decide),
    c6_fmt_entry_renderer.2.2.2.2.2.2.2.2 ed0 (str "ab") (by decide)⟩

/-- Claim C2 fails on the code: a line whose only token is the invalid marker
is reported as a missing name, not as an invalid marker, because the
field checks run before marker validity. -/
theorem c2_invalid_marker_counterexample :
    Entry.parse 1 (splitWhitespace (str "%")) =
      .error (.MissingName 1) ∧
    Entry.parse 1 (splitWhitespace (str "%")) ≠
      .error (.InvalidEntryMarker 1 (str "%")) := by
  exact ⟨by decide, by decide⟩

/-- Claim C2 (amended): for a line whose first token is not a valid marker,
the invalid-marker error is reported only when all four fields are also
present; with fewer tokens the first missing-field error wins, because
marker presence is checked first, then the fields, and marker validity
last. -/
theorem c2_invalid_marker_amended (num : Nat)
    (marker t1 t2 t3 t4 : List Char) (more : List (List Char))
    (h1 : marker ≠ str "+") (h2 : marker ≠ str "-") (h3 : marker ≠ str "*") :
    Entry.parse num (marker :: t1 :: t2 :: t3 :: t4 :: more) =
      .error (.InvalidEntryMarker num marker) ∧
    Entry.parse num [marker] = .error (.MissingName num) ∧
    Entry.parse num [marker, t1] = .error (.MissingLink num) ∧
    Entry.parse num [marker, t1, t2] = .error (.MissingUsername num) ∧
    Entry.parse num [marker, t1, t2, t3] =
      .error (.MissingPassword num) := by
  refine ⟨?_, rfl, rfl, rfl, rfl⟩
  simp [Entry.parse, EntryData.parse, h1, h2, h3]

/-- Witness for the amended C2 at a concrete invalid marker. -/
theorem c2_invalid_marker_amended_witness :
    Entry.parse 1 [str "%", str "a", str "b", str "c", str "d"] =
      .error (.InvalidEntryMarker 1 (str "%")) ∧
    Entry.parse 1 [str "%"] = .error (.MissingName 1) ∧
    Entry.parse 1 [str "%", str "a"] = .error (.MissingLink 1) ∧
    Entry.parse 1 [str "%", str "a", str "b"] =
      .error (.MissingUsername 1) ∧
    Entry.parse 1 [str "%", str "a", str "b", str "c"] =
      .error (.MissingPassword 1) :=
  c2_invalid_marker_amended 1 (str "%") (str "a") (str "b") (str "c")
    (str "d") [] (by decide) (by decide) (by decide)

/-- Claim C7 fails on the code: emptiness of the child's pipes is judged after
trimming, so a whitespace-only standard error yields the message-free
failure (not the with-message one the claim requires for non-empty
standard error), and a whitespace-only standard output on a zero exit is
reported as producing nothing. -/
theorem c7_generator_outcomes_counterexample :
    genStep ⟨.exited 1, .ok (str " "), .ok []⟩ = .fail (.PwGenErr 1) ∧
    genStep ⟨.exited 1, .ok (str " "), .ok []⟩ ≠
      .fail (.PwGenErrMsg 1 (str " ")) ∧
    genStep ⟨.exited 0, .ok [], .ok (str " ")⟩ = .fail .PwGenNoStdout := by
  exact ⟨by decide, by decide, by decide⟩

/-- Claim C7 (amended): a non-zero exit with an unreadable standard error is
the stderr-unreadable failure; with a standard error that is empty after
trimming it is the message-free failure, and otherwise the failure
carries the trimmed message; signal death is the killed failure; a zero
exit with unreadable standard output is the stdout-unreadable failure
and with standard output empty after trimming the produced-nothing
failure — and any failing iteration ends the loop at once with that
error, never retrying. -/
theorem c7_generator_outcomes :
    (∀ (a : GenAttempt) (code : Int) (e : Nat), a.status = .exited code →
      code ≠ 0 → a.stderr = .error e →
      genStep a = .fail (.PwGenStderrErr code e)) ∧
    (∀ (a : GenAttempt) (code : Int) (s : List Char),
      a.status = .exited code → code ≠ 0 → a.stderr = .ok s → trim s = [] →
      genStep a = .fail (.PwGenErr code)) ∧
    (∀ (a : GenAttempt) (code : Int) (s : List Char),
      a.status = .exited code → code ≠ 0 → a.stderr = .ok s → trim s ≠ [] →
      genStep a = .fail (.PwGenErrMsg code (trim s))) ∧
    (∀ a : GenAttempt, a.status = .signaled →
      genStep a = .fail .PwGenDied) ∧
    (∀ (a : GenAttempt) (e : Nat), a.status = .exited 0 →
      a.stdout = .error e → genStep a = .fail (.PwGenStdoutErr e)) ∧
    (∀ (a : GenAttempt) (s : List Char), a.status = .exited 0 →
      a.stdout = .ok s → trim s = [] → genStep a = .fail .PwGenNoStdout) ∧
    (∀ (attempts : Nat → GenAttempt) (i fuel : Nat) (err : Err),
      genStep (attempts i) = .fail err →
      genLoop (fuel + 1) attempts i = some (.error err)) := by
  refine ⟨?_, ?_, ?_, ?_, ?_, ?_, ?_⟩
  · rintro ⟨st, serr, sout⟩ code e hst hcode herr
    simp only at hst herr
    subst hst herr
    simp [genStep, ExitStatus.success, ExitStatus.code, hcode]
  · rintro ⟨st, serr, sout⟩ code s hst hcode herr htrim
    simp only at hst herr
    subst hst herr
    simp [genStep, ExitStatus.success, ExitStatus.code, hcode, htrim]
  · rintro ⟨st, serr, sout⟩ code s hst hcode herr htrim
    simp only at hst herr
    subst hst herr
    simp [genStep, ExitStatus.success, ExitStatus.code, hcode,
      List.isEmpty_iff, htrim]
  · rintro ⟨st, serr, sout⟩ hst
    simp only at hst
    subst hst
    simp [genStep, ExitStatus.success, ExitStatus.code]
  · rintro ⟨st, serr, sout⟩ e hst hout
    simp only at hst hout
    subst hst hout
    simp [genStep, ExitStatus.success]
  · rintro ⟨st, serr, sout⟩ s hst hout htrim
    simp only at hst hout
    subst hst hout
    simp [genStep, ExitStatus.success, htrim]
  · intro attempts i fuel err h
    simp [genLoop, h]

/-- Witness for the amended C7 at concrete child runs. -/
theorem c7_generator_outcomes_witness :
    genStep ⟨.exited 2, .error 5, .ok []⟩ = .fail (.PwGenStderrErr 2 5) ∧
    genStep ⟨.exited 2, .ok (str " "), .ok []⟩ = .fail (.PwGenErr 2) ∧
    genStep ⟨.exited 2, .ok (str " boom "), .ok []⟩ =
      .fail (.PwGenErrMsg 2 (trim (str " boom "))) ∧
    genStep ⟨.signaled, .ok [], .ok []⟩ = .fail .PwGenDied ∧
    genStep ⟨.exited 0, .ok [], .error 7⟩ = .fail (.PwGenStdoutErr 7) ∧
    genStep ⟨.exited 0, .ok [], .ok (str " ")⟩ = .fail .PwGenNoStdout ∧
    genLoop 1 (fun _ => ⟨.signaled, .ok [], .ok []⟩) 0 =
      some (.error .PwGenDied) :=
  ⟨c7_generator_outcomes.1 _ 2 5 rfl (by decide) rfl,
    c7_generator_outcomes.2.1 _ 2 (str " ") rfl (by decide) rfl (by decide),
    c7_generator_outcomes.2.2.1 _ 2 (str " boom ") rfl (by decide) rfl
      (by decide),
    c7_generator_outcomes.2.2.2.1 _ rfl,
    c7_generator_outcomes.2.2.2.2.1 _ 7 rfl rfl,
    c7_generator_outcomes.2.2.2.2.2.1 _ (str " ") rfl rfl (by decide),
    c7_generator_outcomes.2.2.2.2.2.2 _ 0 0 .PwGenDied (by decide)⟩

/-- Helper: a successful run whose trimmed output starts with ASCII
punctuation is rejected for another spin of the loop. -/
theorem genStep_retry (a : GenAttempt) (s : List Char) (c : Char)
    (rest : List Char) (hst : a.status = .exited 0) (hout : a.stdout = .ok s)
    (htrim : trim s = c :: rest) (hp : isAsciiPunctuation c = true) :
    genStep a = .retry := by
  obtain ⟨st, serr, sout⟩ := a
  simp only at hst hout
  subst hst hout
  simp [genStep, ExitStatus.success, htrim, hp]

/-- Helper: an emitted password is the trimmed output of a successful
run and does not start with ASCII punctuation. -/
theorem genStep_emit_inv (a : GenAttempt) (p : List Char)
    (h : genStep a = .emit p) :
    ∃ s, a.stdout = .ok s ∧ p = trim s ∧
      ∀ c rest, p = c :: rest → isAsciiPunctuation c = false := by
  obtain ⟨st, serr, sout⟩ := a
  by_cases hs : st.success
  · cases sout with
    | error e => simp [genStep, hs] at h
    | ok s =>
      refine ⟨s, rfl, ?_⟩
      cases htrim : trim s with
      | nil => simp [genStep, hs, htrim] at h
      | cons c rest =>
        by_cases hp : isAsciiPunctuation c
        · simp [genStep, hs, htrim, hp] at h
        · simp [genStep, hs, htrim, hp] at h
          refine ⟨by rw [← h], ?_⟩
          intro c2 rest2 hc
          rw [← h] at hc
          injection hc with hc1 hc2
          subst hc1
          simpa using hp
  · exfalso
    cases st with
    | signaled =>
      simp [genStep, ExitStatus.success, ExitStatus.code] at h
    | exited code =>
      cases serr with
      | error e => simp [genStep, hs, ExitStatus.code] at h
      | ok s =>
        by_cases he : (trim s).isEmpty <;>
          simp [genStep, hs, ExitStatus.code, he] at h

/-- Claim C3: the policy loop trims each candidate and respawns while the
trimmed candidate leads with ASCII punctuation: on the scripted sequence
with a punctuation-leading first candidate the second is emitted (after
trimming), a stream of punctuation-leading candidates never terminates
for any amount of fuel, and an emitted password never starts with ASCII
punctuation. -/
theorem c3_generator_policy_loop :
    genLoop 2
        (fun n =>
          if n = 0 then ⟨.exited 0, .ok [], .ok (str "!abcdefgh")⟩
          else ⟨.exited 0, .ok [], .ok (str " Xabcdefgh\n")⟩) 0 =
      some (.ok (str "Xabcdefgh")) ∧
    (∀ attempts : Nat → GenAttempt,
      (∀ n, ∃ s c rest, (attempts n).status = .exited 0 ∧
        (attempts n).stdout = .ok s ∧ trim s = c :: rest ∧
        isAsciiPunctuation c = true) →
      ∀ fuel i, genLoop fuel attempts i = none) ∧
    (∀ (attempts : Nat → GenAttempt) (fuel i : Nat) (p : List Char),
      genLoop fuel attempts i = some (.ok p) →
      ∃ n s, i ≤ n ∧ (attempts n).stdout = .ok s ∧ p = trim s ∧
        ∀ c rest, p = c :: rest → isAsciiPunctuation c = false) := by
  refine ⟨by decide, ?_, ?_⟩
  · intro attempts h fuel
    induction fuel with
    | zero => intro i; rfl
    | succ fuel ih =>
      intro i
      obtain ⟨s, c, rest, hst, hout, htrim, hp⟩ := h i
      simp [genLoop, genStep_retry (attempts i) s c rest hst hout htrim hp]
      exact ih (i + 1)
  · intro attempts fuel
    induction fuel with
    | zero => intro i p h; exact absurd h (by simp [genLoop])
    | succ fuel ih =>
      intro i p h
      rw [genLoop] at h
      cases hstep : genStep (attempts i) with
      | emit q =>
        rw [hstep] at h
        simp only [Option.some.injEq, Except.ok.injEq] at h
        subst h
        obtain ⟨s, hout, hq, hpun⟩ := genStep_emit_inv (attempts i) q hstep
        exact ⟨i, s, le_refl i, hout, hq, hpun⟩
      | fail e =>
        rw [hstep] at h
        simp at h
      | retry =>
        rw [hstep] at h
        obtain ⟨n, s, hn, hout, hp, hpun⟩ := ih (i + 1) p h
        exact ⟨n, s, by omega, hout, hp, hpun⟩

/-- Witness for C3: a stream of punctuation-leading candidates is still
looping after three spawns, and the password emitted by the scripted
sequence is a trimmed candidate not starting with punctuation. -/
theorem c3_generator_policy_loop_witness :
    genLoop 3 (fun _ => ⟨.exited 0, .ok [], .ok (str "!x")⟩) 0 = none ∧
    (∃ n s, 0 ≤ n ∧
      ((fun n =>
          if n = 0 then
            (⟨.exited 0, .ok [], .ok (str "!abcdefgh")⟩ : GenAttempt)
          else ⟨.exited 0, .ok [], .ok (str " Xabcdefgh\n")⟩) n).stdout =
        .ok s ∧
      str "Xabcdefgh" = trim s ∧
      ∀ c rest, str "Xabcdefgh" = c :: rest →
        isAsciiPunctuation c = false) :=
  ⟨c3_generator_policy_loop.2.1 (fun _ => ⟨.exited 0, .ok [], .ok (str "!x")⟩)
      (fun _ => ⟨str "!x", '!', ['x'], rfl, rfl, by decide, by decide⟩) 3 0,
    c3_generator_policy_loop.2.2 _ 2 0 (str "Xabcdefgh") (by decide)⟩

/-- Helper: once a match is held, any further Active match is ambiguous. -/
theorem runGet_map_ok_some (es : List Entry) (acc : List Char)
    (d0 : EntryData) :
    runGet (es.map Except.ok) acc (some d0) =
      match specActiveMatches acc es with
      | [] => .ok d0
      | _ :: _ => .error (.Mismatch acc) := by
  induction es with
  | nil => rfl
  | cons e rest ih =>
    cases e with
    | Valid d =>
      by_cases h : d.name = acc
      · simp [runGet, specActiveMatches, h]
      · simpa [runGet, specActiveMatches, h] using ih
    | Invalid d => simpa [runGet, specActiveMatches] using ih
    | Change d => simpa [runGet, specActiveMatches] using ih

/-- Helper: the scan of `get` is determined by the Active records whose
name equals the query exactly. -/
theorem runGet_map_ok_none (es : List Entry) (acc : List Char) :
    runGet (es.map Except.ok) acc none =
      match specActiveMatches acc es with
      | [] => .error (.NoMatches acc)
      | [d] => .ok d
      | _ :: _ :: _ => .error (.Mismatch acc) := by
  induction es with
  | nil => rfl
  | cons e rest ih =>
    cases e with
    | Valid d =>
      by_cases h : d.name = acc
      · subst h
        have hsam : specActiveMatches d.name (Entry.Valid d :: rest) =
            d :: specActiveMatches d.name rest := by
          simp [specActiveMatches]
        have hl : runGet ((Entry.Valid d :: rest).map Except.ok) d.name none =
            runGet (rest.map Except.ok) d.name (some d) := by
          simp [runGet]
        rw [hsam, hl, runGet_map_ok_some]
        cases specActiveMatches d.name rest with
        | nil => rfl
        | cons d2 rest2 => rfl
      · simpa [runGet, specActiveMatches, h] using ih
    | Invalid d => simpa [runGet, specActiveMatches] using ih
    | Change d => simpa [runGet, specActiveMatches] using ih

/-- Claim C1: over a well-formed store, `get` is decided exactly by the Active
records whose name equals the query byte-for-byte: none of them gives
the no-matches error tagged with the query, two or more give the
ambiguous-match error tagged with the query, and exactly one renders
that record; Inactive and PendingChange records never count. -/
theorem c1_get_exact_fetch (entries : List Entry) (acc format : List Char) :
    getOutputs (entries.map Except.ok) acc format =
      match specActiveMatches acc entries with
      | [] => ([], some (.NoMatches acc))
      | [d] => ([fmt_entry format d], none)
      | _ :: _ :: _ => ([], some (.Mismatch acc)) := by
  unfold getOutputs
  rw [runGet_map_ok_none]
  cases specActiveMatches acc entries with
  | nil => rfl
  | cons d rest => cases rest <;> rfl

/-- Helper: the empty token list is a substring of anything. -/
theorem isSubstring_nil (hay : List Char) : isSubstring [] hay = true := by
  cases hay <;> simp [isSubstring, startsWithList]

/-- Helper: over error-free results, the search loop renders exactly the
spec's selection, in source order, and reports no error. -/
theorem runList_map_ok (es : List Entry) (q : List Char) :
    runList (es.map Except.ok) q = (es.filterMap (specSearchSelect q), none) := by
  induction es with
  | nil => rfl
  | cons e rest ih =>
    cases e with
    | Valid d =>
      by_cases h : strContains (lower d.name) (lower q) = true
      · simp [runList, specSearchSelect, h, ih]
      · simp [runList, specSearchSelect, h, ih]
    | Invalid d => simpa [runList, specSearchSelect] using ih
    | Change d => simpa [runList, specSearchSelect] using ih

/-- Helper: the fixed search template renders a record as
name, link in parentheses, username, secret, single-space separated. -/
theorem fmt_entry_defaultFmt (d : EntryData) :
    fmt_entry defaultFmt d =
      d.name ++ ' ' :: '(' ::
        (d.link ++ ')' :: ' ' :: (d.username ++ ' ' :: d.password)) := by
  have h : fmt_entry defaultFmt d =
      d.name ++ ' ' :: '(' ::
        (d.link ++ ')' :: ' ' :: (d.username ++ ' ' :: (d.password ++ []))) :=
    rfl
  simpa using h

/-- Claim C4: search selects exactly the Active records whose lowercased name
contains the lowercased query as a substring, renders each on its own
line in store order with the fixed template (name, link in parentheses,
username, secret), and the empty query selects every Active record. -/
theorem c4_list_search :
    (∀ (entries : List Entry) (q : List Char),
      runList (entries.map Except.ok) q =
        (entries.filterMap (specSearchSelect q), none)) ∧
    (∀ d : EntryData, fmt_entry defaultFmt d =
      d.name ++ ' ' :: '(' ::
        (d.link ++ ')' :: ' ' :: (d.username ++ ' ' :: d.password))) ∧
    (∀ entries : List Entry,
      runList (entries.map Except.ok) [] =
        (entries.filterMap fun e =>
          match e with
          | .Valid d => some (fmt_entry defaultFmt d)
          | _ => none, none)) := by
  refine ⟨runList_map_ok, fmt_entry_defaultFmt, ?_⟩
  intro entries
  rw [runList_map_ok]
  have h : ∀ e : Entry, specSearchSelect [] e =
      (fun e =>
        match e with
        | Entry.Valid d => some (fmt_entry defaultFmt d)
        | _ => none) e := by
    intro e
    cases e with
    | Valid d =>
      simp [specSearchSelect, lower, strContains, isSubstring_nil]
    | Invalid d => rfl
    | Change d => rfl
  rw [funext h]

/-- Helper: the tally loop adds to its accumulators the number of
results of each status, never skipping a result, and fails on any parse
error. -/
theorem runCheck_ok (rs : List (Except Err Entry)) :
    ∀ v0 i0 c0 v i c, runCheck rs v0 i0 c0 = .ok (v, i, c) →
      v = v0 + rs.countP isOkValid ∧ i = i0 + rs.countP isOkInvalid ∧
      c = c0 + rs.countP isOkChange ∧
      v + i + c = v0 + i0 + c0 + rs.length := by
  induction rs with
  | nil =>
    intro v0 i0 c0 v i c h
    simp only [runCheck, Except.ok.injEq, Prod.mk.injEq] at h
    obtain ⟨rfl, rfl, rfl⟩ := h
    simp
  | cons r rest ih =>
    intro v0 i0 c0 v i c h
    cases r with
    | error e => simp [runCheck] at h
    | ok entry =>
      cases entry with
      | Valid d =>
        obtain ⟨hv, hi, hc, hs⟩ := ih (v0 + 1) i0 c0 v i c h
        refine ⟨?_, ?_, ?_, ?_⟩ <;>
          simp [List.countP_cons, isOkValid, isOkInvalid, isOkChange,
            hv, hi, hc] <;> omega
      | Invalid d =>
        obtain ⟨hv, hi, hc, hs⟩ := ih v0 (i0 + 1) c0 v i c h
        refine ⟨?_, ?_, ?_, ?_⟩ <;>
          simp [List.countP_cons, isOkValid, isOkInvalid, isOkChange,
            hv, hi, hc] <;> omega
      | Change d =>
        obtain ⟨hv, hi, hc, hs⟩ := ih v0 i0 (c0 + 1) v i c h
        refine ⟨?_, ?_, ?_, ?_⟩ <;>
          simp [List.countP_cons, isOkValid, isOkInvalid, isOkChange,
            hv, hi, hc] <;> omega

/-- Helper: the parser emits exactly one result per kept line. -/
theorem parseFrom_length (data : List (List Char)) :
    ∀ k, (parseFrom k data).length = data.countP keepLine := by
  induction data with
  | nil => intro k; rfl
  | cons l rest ih =>
    intro k
    by_cases h : keepLine l <;>
      simp [parseFrom, h, List.countP_cons, ih (k + 1)]

/-- Claim C5: over a well-formed store, `check` counts records of all three
statuses across the whole store, reports them in the fixed order
active, inactive, pending-change, and the three counts sum to the
number of non-blank, non-comment lines. -/
theorem c5_check_tally (data : List (List Char)) (v i c : Nat)
    (h : check data = .ok (v, i, c)) :
    v = (parse data).countP isOkValid ∧
    i = (parse data).countP isOkInvalid ∧
    c = (parse data).countP isOkChange ∧
    v + i + c = data.countP keepLine := by
  obtain ⟨hv, hi, hc, hs⟩ := runCheck_ok (parse data) 0 0 0 v i c h
  refine ⟨by omega, by omega, by omega, ?_⟩
  rw [hs]
  simpa using parseFrom_length data 0

/-- Witness for C5 on a concrete store with one record of each status,
one comment line and one blank line. -/
theorem c5_check_tally_witness :
    1 = (parse [str "+ a b c d", str "- a b c d", str "* a b c d",
      str "# c", str ""]).countP isOkValid ∧
    1 = (parse [str "+ a b c d", str "- a b c d", str "* a b c d",
      str "# c", str ""]).countP isOkInvalid ∧
    1 = (parse [str "+ a b c d", str "- a b c d", str "* a b c d",
      str "# c", str ""]).countP isOkChange ∧
    1 + 1 + 1 = ([str "+ a b c d", str "- a b c d", str "* a b c d",
      str "# c", str ""]).countP keepLine :=
  c5_check_tally [str "+ a b c d", str "- a b c d", str "* a b c d",
    str "# c", str ""] 1 1 1 (by decide)

/-- Helper: parsing distributes over appending stores, shifting the line
counter by the length of the first part. -/
theorem parseFrom_append (xs ys : List (List Char)) :
    ∀ k, parseFrom k (xs ++ ys) =
      parseFrom k xs ++ parseFrom (k + xs.length) ys := by
  induction xs with
  | nil => intro k; simp [parseFrom]
  | cons l rest ih =>
    intro k
    have harith : k + (rest.length + 1) = k + 1 + rest.length := by omega
    by_cases h : keepLine l <;>
      simp [parseFrom, h, ih (k + 1), List.length_cons, harith]

/-- Claim C8: a store line holding only a marker and a name is reported as a
missing link tagged with its 1-based line number, whatever lines
surround it; blank and comment lines are skipped without producing a
result, yet still advance the line counter used in errors. -/
theorem c8_blank_comment_line_numbers :
    (∀ pre post : List (List Char),
      parse (pre ++ str "+ onlyname" :: post) =
        parse pre ++ .error (.MissingLink (pre.length + 1)) ::
          parseFrom (pre.length + 1) post) ∧
    (∀ (l : List Char) (k : Nat) (rest : List (List Char)),
      trim l = [] ∨ (trim l).head? = some '#' →
      parseFrom k (l :: rest) = parseFrom (k + 1) rest) := by
  constructor
  · intro pre post
    have hkeep : keepLine (str "+ onlyname") = true := by decide
    have hline : ∀ n, Entry.parse (n + 1) (splitWhitespace (str "+ onlyname")) =
        .error (.MissingLink (n + 1)) := fun n => rfl
    unfold parse
    rw [parseFrom_append]
    simp [parseFrom, hkeep, hline]
  · intro l k rest h
    have hkeep : keepLine l = false := by
      cases h with
      | inl h => simp [keepLine, h]
      | inr h => simp [keepLine, h]
    simp [parseFrom, hkeep]

/-- Witness for C8: a comment line before a well-formed line. -/
theorem c8_blank_comment_line_numbers_witness :
    parseFrom 0 (str "# note" :: [str "+ a b c d"]) =
      parseFrom 1 [str "+ a b c d"] :=
  c8_blank_comment_line_numbers.2 (str "# note") 0 [str "+ a b c d"]
    (Or.inr (by decide))

/-- Helper: dropping a satisfied prefix from an all-satisfying list
leaves nothing. -/
theorem dropWhile_eq_nil_of_all (p : Char → Bool) (l : List Char)
    (h : ∀ c ∈ l, p c = true) : l.dropWhile p = [] := by
  induction l with
  | nil => rfl
  | cons c rest ih =>
    rw [List.dropWhile_cons, if_pos (h c (by simp))]
    exact ih fun c2 hc => h c2 (by simp [hc])

/-- Helper: a line of whitespace only trims to nothing. -/
theorem trim_nil_of_all_ws (l : List Char) (h : ∀ c ∈ l, isWs c = true) :
    trim l = [] := by
  unfold trim
  rw [dropWhile_eq_nil_of_all isWs l h]
  rfl

/-- Helper: with a token already in the accumulator, the splitter
returns at least that token. -/
theorem splitWsAux_ne_nil_of_acc (l : List Char) :
    ∀ acc : List Char, acc ≠ [] → splitWsAux l acc ≠ [] := by
  induction l with
  | nil =>
    intro acc h
    simp [splitWsAux, List.isEmpty_iff, h]
  | cons c rest ih =>
    intro acc h
    by_cases hw : isWs c
    · simp [splitWsAux, hw, List.isEmpty_iff, h]
    · simpa [splitWsAux, hw] using ih (c :: acc) (by simp)

/-- Helper: a list holding a non-whitespace character splits into at
least one token. -/
theorem splitWsAux_ne_nil (l : List Char) (c0 : Char) (h0 : c0 ∈ l)
    (hw : isWs c0 = false) : ∀ acc, splitWsAux l acc ≠ [] := by
  induction l with
  | nil => simp at h0
  | cons c rest ih =>
    intro acc
    by_cases hc : isWs c
    · have hmem : c0 ∈ rest := by
        rcases List.mem_cons.mp h0 with h | h
        · subst h; rw [hc] at hw; cases hw
        · exact h
      by_cases ha : acc.isEmpty
      · simpa [splitWsAux, hc, ha] using ih hmem []
      · simp [splitWsAux, hc, ha]
    · simpa [splitWsAux, hc] using
        splitWsAux_ne_nil_of_acc rest (c :: acc) (by simp)

/-- Helper: a line that does not trim to nothing splits into at least
one whitespace-separated token. -/
theorem splitWhitespace_ne_nil (l : List Char) (h : trim l ≠ []) :
    splitWhitespace l ≠ [] := by
  have hex : ∃ c ∈ l, isWs c = false := by
    by_contra hall
    push_neg at hall
    refine h (trim_nil_of_all_ws l fun c hc => ?_)
    cases hcase : isWs c with
    | false => exact absurd hcase (hall c hc)
    | true => rfl
  obtain ⟨c0, hc0, hw⟩ := hex
  exact splitWsAux_ne_nil l c0 hc0 hw []

/-- Helper: a kept line does not trim to nothing. -/
theorem keepLine_trim_ne_nil (l : List Char) (h : keepLine l = true) :
    trim l ≠ [] := by
  intro hnil
  simp [keepLine, hnil] at h

/-- Helper: the field parser only ever reports a missing field. -/
theorem EntryData.parse_error_shape (num : Nat) (toks : List (List Char))
    (e : Err) (h : EntryData.parse num toks = .error e) :
    e = .MissingName num ∨ e = .MissingLink num ∨
    e = .MissingUsername num ∨ e = .MissingPassword num := by
  rcases toks with _ | ⟨t1, _ | ⟨t2, _ | ⟨t3, _ | ⟨t4, more⟩⟩⟩⟩ <;>
    simp [EntryData.parse] at h <;> tauto

/-- Helper: a line with at least one token never yields the
missing-marker error. -/
theorem Entry.parse_ne_missing_marker (num : Nat) (marker : List Char)
    (rest : List (List Char)) (m : Nat) :
    Entry.parse num (marker :: rest) ≠ .error (.MissingMarker m) := by
  intro h
  rw [Entry.parse.eq_def] at h
  cases hd : EntryData.parse num rest with
  | error e =>
    simp only [hd] at h
    injection h with h2
    subst h2
    rcases EntryData.parse_error_shape num rest _ hd with h1 | h1 | h1 | h1 <;>
      simp at h1
  | ok d =>
    simp only [hd] at h
    split_ifs at h
    simp at h

/-- Helper: `isMissingMarker` rejects any result that is not literally a
missing-marker error. -/
theorem isMissingMarker_eq_false (r : Except Err Entry)
    (h : ∀ m, r ≠ .error (.MissingMarker m)) : isMissingMarker r = false := by
  cases r with
  | ok e => rfl
  | error e =>
    cases e with
    | MissingMarker m => exact absurd rfl (h m)
    | MissingName n => rfl
    | MissingLink n => rfl
    | MissingUsername n => rfl
    | MissingPassword n => rfl
    | InvalidEntryMarker n t => rfl
    | PwGenSpawn e => rfl
    | PwGenWait e => rfl
    | PwGenErr c => rfl
    | PwGenErrMsg c s => rfl
    | PwGenStderrErr c e => rfl
    | PwGenNoStdout => rfl
    | PwGenStdoutErr e => rfl
    | PwGenDied => rfl
    | Mismatch q => rfl
    | NoMatches q => rfl

/-- Helper: no result of the parser, from any starting line number, is a
missing-marker error. -/
theorem parseFrom_no_missing_marker (data : List (List Char)) :
    ∀ k, hasMissingMarker (parseFrom k data) = false := by
  induction data with
  | nil => intro k; rfl
  | cons l rest ih =>
    intro k
    by_cases h : keepLine l
    · have htoks : splitWhitespace l ≠ [] :=
        splitWhitespace_ne_nil l (keepLine_trim_ne_nil l h)
      cases htk : splitWhitespace l with
      | nil => exact absurd htk htoks
      | cons marker toks =>
        have hhead : isMissingMarker (Entry.parse (k + 1) (marker :: toks)) =
            false :=
          isMissingMarker_eq_false _ fun m =>
            Entry.parse_ne_missing_marker (k + 1) marker toks m
        have hcons : parseFrom k (l :: rest) =
            Entry.parse (k + 1) (splitWhitespace l) :: parseFrom (k + 1) rest := by
          simp [parseFrom, h]
        have htail := ih (k + 1)
        unfold hasMissingMarker at htail ⊢
        rw [hcons, htk, List.any_cons, hhead, htail]
        rfl
    · simp [parseFrom, h, ih (k + 1)]

/-- Claim C9: the parser never yields the missing-marker error: blank lines
are filtered out before per-line parsing, so every parsed line has at
least one token and the missing-token-0 branch is unreachable. -/
theorem c9_no_missing_marker (data : List (List Char)) :
    hasMissingMarker (parse data) = false :=
  parseFrom_no_missing_marker data 0

/-- Helper: a result list holding an error before its end never lets the
scan of `get` finish with a match in hand. -/
theorem runGet_append_error (pe : Err) (rest : List (Except Err Entry))
    (acc : List Char) (xs : List (Except Err Entry)) :
    ∀ m, ∃ e, runGet (xs ++ .error pe :: rest) acc m = .error e := by
  induction xs with
  | nil => intro m; exact ⟨pe, rfl⟩
  | cons r xs ih =>
    intro m
    cases r with
    | error e => exact ⟨e, rfl⟩
    | ok entry =>
      cases entry with
      | Valid d =>
        by_cases h : d.name = acc
        · cases m with
          | some d0 => exact ⟨.Mismatch acc, by simp [runGet, h]⟩
          | none =>
            obtain ⟨e, he⟩ := ih (some d)
            exact ⟨e, by simpa [runGet, h] using he⟩
        · obtain ⟨e, he⟩ := ih m
          exact ⟨e, by simpa [runGet, h] using he⟩
      | Invalid d =>
        obtain ⟨e, he⟩ := ih m
        exact ⟨e, by simpa [runGet] using he⟩
      | Change d =>
        obtain ⟨e, he⟩ := ih m
        exact ⟨e, by simpa [runGet] using he⟩

/-- Helper: the search loop prints every match among the records before
the first malformed result, then surfaces that result's error. -/
theorem runList_append_error (es : List Entry) (pe : Err)
    (rest : List (Except Err Entry)) (q : List Char) :
    runList (es.map Except.ok ++ .error pe :: rest) q =
      (es.filterMap (specSearchSelect q), some pe) := by
  induction es with
  | nil => rfl
  | cons e tail ih =>
    cases e with
    | Valid d =>
      by_cases h : strContains (lower d.name) (lower q) = true
      · simp [runList, specSearchSelect, h, ih]
      · simp [runList, specSearchSelect, h, ih]
    | Invalid d => simpa [runList, specSearchSelect] using ih
    | Change d => simpa [runList, specSearchSelect] using ih

/-- Claim C10: `get` prints nothing whenever it returns an error (it renders
only after the whole store scanned cleanly), while `ls` prints each
match as it is encountered: with Active matches before a malformed
line, `ls` prints those matches and then returns the parse error, while
`get` on the same results still prints nothing. -/
theorem c10_output_before_error :
    (∀ (results : List (Except Err Entry)) (acc format : List Char)
      (e : Err), (getOutputs results acc format).2 = some e →
      (getOutputs results acc format).1 = []) ∧
    (∀ (es : List Entry) (pe : Err) (rest : List (Except Err Entry))
      (q : List Char),
      runList (es.map Except.ok ++ .error pe :: rest) q =
        (es.filterMap (specSearchSelect q), some pe)) ∧
    (∀ (es : List Entry) (pe : Err) (rest : List (Except Err Entry))
      (acc format : List Char),
      (getOutputs (es.map Except.ok ++ .error pe :: rest) acc format).1 =
        [] ∧
      ∃ e, (getOutputs (es.map Except.ok ++ .error pe :: rest)
        acc format).2 = some e) ∧
    (list [str "+ alice web user pw", str "+ onlyname"] (str "al") =
      ([str "alice (web) user pw"], some (.MissingLink 2)) ∧
    get [str "+ alice web user pw", str "+ onlyname"] (str "alice")
      (str "%P") = ([], some (.MissingLink 2))) := by
  refine ⟨?_, runList_append_error, ?_, by decide, by decide⟩
  · intro results acc format e h
    unfold getOutputs at h ⊢
    cases hr : runGet results acc none with
    | ok d => rw [hr] at h; simp at h
    | error e2 => rfl
  · intro es pe rest acc format
    obtain ⟨e, he⟩ := runGet_append_error pe rest acc (es.map Except.ok) none
    exact ⟨by simp [getOutputs, he], e, by simp [getOutputs, he]⟩

/-- Witness for C10: a store whose only line is malformed produces no
rendered output from `get`. -/
theorem c10_output_before_error_witness :
    (getOutputs [Except.error (Err.MissingName 1)] (str "a")
      (str "%N")).1 = [] :=
  c10_output_before_error.1 [.error (.MissingName 1)] (str "a") (str "%N")
    (.MissingName 1) (by decide)

end Pw
